import Mathlib

/-!
# Shallow embedding of `main-server/store/store.go` (Vagary/watchdog)

The Go store keeps, behind one RWMutex, three maps:
  * `servers    : map[string]map[string][]PingRet` (per-server, per-location ping history)
  * `users      : map[string]*User`
  * `allServers : map[string]int64` (monitor reference counts)
plus two notification channels (`AddServerChan`, `KickServerChan`) and a
closed flag.  We embed Go maps as association lists over `String` keys
(Go maps have unique keys; reads of a missing `int64` key yield `0`,
reads of a missing slice yield the empty slice), channels as the list of
values pushed so far (capacity and blocking are concurrency behaviour,
outside the sequential embedding), and the storage engine as a response
function from the engine call performed to the `error` it returns
(`none` = nil error).  Each operation returns the new store, the Go
`error` result, and the list of engine calls it made.  The spin-wait in
`Close` on `closeCounter` and the lock acquisition are inter-thread
mechanics with no sequential content; sequentially `Close` sets the
closed flag and `do` skips the body when the flag is set.
-/

set_option linter.unusedVariables false

namespace Watchdog

/-- `PingRet` from the repo: one time-series sample; both fields are
string-encoded (`pr.Time`, `pr.Ping` in `store.go`). -/
structure PingRet where
  Time : String
  Ping : String
deriving DecidableEq, Repr

/-- `_DEFAULT_PING = "0.000"` from `store.go`. -/
def defaultPing : String := "0.000"

/-- `defaultPingRet` from `store.go`: placeholder sample with the given
timestamp and the sentinel ping value. -/
def defaultPingRet (t : String) : PingRet := { Time := t, Ping := defaultPing }

/-- Modelled from the spec: the `User` struct is declared outside
`store.go` (not under `src/`).  Per the spec's data model, a `User` is
"credentials plus the set of servers it monitors"
(`{Username, Password, MonitorServers: set of server-name}`); the
`Username` field duplicates the key of the `users` map and is never read
by the store's code, so it is omitted.  `MonitorServers` (a
`map[string]bool` used as a set in `store.go`) is embedded as a
duplicate-free list of server names. -/
structure User where
  Password : String
  MonitorServers : List String
deriving DecidableEq, Repr

/-- Modelled from the spec: `newUser()` is declared outside `store.go`;
per the spec, `AddUser` "creates a User with empty monitor set" and then
assigns the password, so `newUser` returns a user with an empty monitor
set (and the zero-value password, overwritten right after creation). -/
def newUser : User := { Password := "", MonitorServers := [] }

/-- Go map lookup on an association list: value of the first entry with
the given key, `none` when absent. -/
def lookupKey {α : Type} : List (String × α) → String → Option α
  | [], _ => none
  | (k, v) :: rest, key => if k = key then some v else lookupKey rest key

/-- Go map assignment `m[key] = v`: replace the entry if present,
append it otherwise. -/
def setEntry {α : Type} : List (String × α) → String → α → List (String × α)
  | [], key, v => [(key, v)]
  | (k, w) :: rest, key, v =>
    if k = key then (key, v) :: rest else (k, w) :: setEntry rest key v

/-- Go `delete(m, key)`: remove every entry with the given key (a Go map
has at most one). -/
def delEntry {α : Type} : List (String × α) → String → List (String × α)
  | [], _ => []
  | (k, w) :: rest, key =>
    if k = key then delEntry rest key else (k, w) :: delEntry rest key

/-- Go read `allServers[server]` on the `map[string]int64`: a missing
key reads as `0`. -/
def getCount (m : List (String × Int)) (key : String) : Int :=
  (lookupKey m key).getD 0

/-- The `error` values the store returns (`fmt.Errorf` /
`_ERROR_INCORRECT_PASSWORD` in `store.go`), plus an engine error
propagated unchanged from `WriteUser` / `BatchWritePingRets`. -/
inductive Err where
  | incorrectPassword
  | userAlreadyExist (username : String)
  | userNotExist (username : String)
  | alreadyMonitoring (server : String)
  | serverNotExist (server : String)
  | notMonitoring (server : String)
  | engine (msg : String)
deriving DecidableEq, Repr

/-- One call made to the storage engine by a store operation. -/
inductive EngineCall where
  | writeUser (username : String) (u : User)
  | batchWritePingRets (server location : String) (prs : List PingRet)
deriving DecidableEq, Repr

/-- The storage engine's behaviour, as the `error` it returns to each
call (`none` = success).  `LoadConfig`/`Init` are bind-time only and not
needed by the operations. -/
def Engine : Type := EngineCall → Option String

/-- An engine whose writes always succeed. -/
def okEngine : Engine := fun _ => none

/-- The `Store` struct from `store.go`.  Channels are the lists of
values pushed so far (oldest first); `closeCounter` and the RWMutex are
inter-thread mechanics with no sequential content. -/
structure Store where
  servers : List (String × List (String × List PingRet))
  users : List (String × User)
  allServers : List (String × Int)
  addServerChan : List String
  kickServerChan : List String
  isClosed : Bool
deriving DecidableEq, Repr

/-- Result of one store operation: the new store, the returned `error`,
and the engine calls made (in order). -/
structure OpResult where
  store : Store
  err : Option Err
  calls : List EngineCall
deriving DecidableEq, Repr

/-- `Close` from `store.go`: spins until no mutating operation is in
flight (inter-thread mechanics), then sets the closed flag. -/
def Store.Close (s : Store) : Store := { s with isClosed := true }

/-- `GetUser` from `store.go`: read-locked lookup; `nil` pointer for a
missing user becomes `none`.  Bypasses the `do` closed-check. -/
def Store.GetUser (s : Store) (username : String) : Option User :=
  lookupKey s.users username

/-- `UpdatePassword` from `store.go`.  Wrapped in `do`: no-op when
closed.  A missing user falls through with a nil error and no write; a
wrong old password returns `incorrectPassword`; otherwise the password
is mutated in place and the user persisted via `WriteUser`. -/
def Store.UpdatePassword (eng : Engine) (s : Store)
    (username oldpassword newpassword : String) : OpResult :=
  if s.isClosed then ⟨s, none, []⟩ else
  match lookupKey s.users username with
  | none => ⟨s, none, []⟩
  | some u =>
    if u.Password ≠ oldpassword then ⟨s, some .incorrectPassword, []⟩
    else
      let u' : User := { u with Password := newpassword }
      ⟨{ s with users := setEntry s.users username u' },
       (eng (.writeUser username u')).map Err.engine,
       [.writeUser username u']⟩

/-- `AddUser` from `store.go`.  Wrapped in `do`: no-op when closed.
Fails if the username exists; otherwise stores a fresh user with the
given password and persists it via `WriteUser`. -/
def Store.AddUser (eng : Engine) (s : Store) (username password : String) :
    OpResult :=
  if s.isClosed then ⟨s, none, []⟩ else
  match lookupKey s.users username with
  | some _ => ⟨s, some (.userAlreadyExist username), []⟩
  | none =>
    let u : User := { newUser with Password := password }
    ⟨{ s with users := setEntry s.users username u },
     (eng (.writeUser username u)).map Err.engine,
     [.writeUser username u]⟩

/-- `DeleteMonitorServer` from `store.go`.  Wrapped in `do`: no-op when
closed.  Fails if the user does not exist.  If the user monitors the
server, removes it from the set and decrements `allServers[server]`
(a Go `m[k]--` on a missing key writes `-1`).  Then, if
`allServers[server] <= 0` (a missing key reads `0`), deletes the entry
and pushes the server to `KickServerChan`.  Always persists the user via
`WriteUser` and returns that write's error. -/
def Store.DeleteMonitorServer (eng : Engine) (s : Store)
    (username server : String) : OpResult :=
  if s.isClosed then ⟨s, none, []⟩ else
  match lookupKey s.users username with
  | none => ⟨s, some (.userNotExist username), []⟩
  | some u =>
    if u.MonitorServers.contains server then
      let u1 : User :=
        { u with MonitorServers := u.MonitorServers.filter (fun x => x ≠ server) }
      let all1 := setEntry s.allServers server (getCount s.allServers server - 1)
      if getCount all1 server ≤ 0 then
        ⟨{ s with users := setEntry s.users username u1,
                  allServers := delEntry all1 server,
                  kickServerChan := s.kickServerChan ++ [server] },
         (eng (.writeUser username u1)).map Err.engine,
         [.writeUser username u1]⟩
      else
        ⟨{ s with users := setEntry s.users username u1, allServers := all1 },
         (eng (.writeUser username u1)).map Err.engine,
         [.writeUser username u1]⟩
    else
      if getCount s.allServers server ≤ 0 then
        ⟨{ s with users := setEntry s.users username u,
                  allServers := delEntry s.allServers server,
                  kickServerChan := s.kickServerChan ++ [server] },
         (eng (.writeUser username u)).map Err.engine,
         [.writeUser username u]⟩
      else
        ⟨{ s with users := setEntry s.users username u },
         (eng (.writeUser username u)).map Err.engine,
         [.writeUser username u]⟩

/-- `AddMonitorServer` from `store.go`.  Wrapped in `do`: no-op when
closed.  Fails if the user does not exist or already monitors the
server; otherwise adds the server to the user's set, pushes the server
to `AddServerChan` when `allServers` has no entry for it (a presence
check, not a sign check), increments `allServers[server]`, and persists
the user via `WriteUser`. -/
def Store.AddMonitorServer (eng : Engine) (s : Store)
    (username server : String) : OpResult :=
  if s.isClosed then ⟨s, none, []⟩ else
  match lookupKey s.users username with
  | none => ⟨s, some (.userNotExist username), []⟩
  | some u =>
    if u.MonitorServers.contains server then
      ⟨s, some (.alreadyMonitoring server), []⟩
    else
      let u' : User := { u with MonitorServers := server :: u.MonitorServers }
      let adds := if (lookupKey s.allServers server).isNone then [server] else []
      ⟨{ s with users := setEntry s.users username u',
                allServers := setEntry s.allServers server
                  (getCount s.allServers server + 1),
                addServerChan := s.addServerChan ++ adds },
       (eng (.writeUser username u')).map Err.engine,
       [.writeUser username u']⟩

/-- The `for loc, prs := range s.servers[server]` loop of
`AppendPingRet` that finds `maxLength`/`maxLocation` (strictly greater
wins, starting from `(0, "")`; Go's map iteration order is unspecified,
the embedding iterates in list order). -/
def findMax (locs : List (String × List PingRet)) : Nat × String :=
  locs.foldl
    (fun acc p => if p.2.length > acc.1 then (p.2.length, p.1) else acc)
    (0, "")

/-- `AppendPingRet` from `store.go`.  Wrapped in `do`: no-op when
closed.  Fails when `allServers[server] <= 0`.  Otherwise lazily creates
the per-server and per-location structures, finds the location with the
most samples, guards against padding into the same tick (when the
longest location's last sample has the incoming Time, the pad target is
`maxLength - 1`), pads the current location with placeholder samples
taking the longest location's Time at each missing index, appends the
incoming sample, and persists the whole pad buffer in one
`BatchWritePingRets` call.  The Go pad loop
`for i := len(cur); i < maxLength; i++ { pad(maxLoc[i].Time) }` reads
`maxLoc` at indices `len(cur) ≤ i < maxLength`; since
`maxLength ≤ maxLoc.length` always holds, it is embedded as
`(maxLoc.take maxLength).drop cur.length`. -/
def Store.AppendPingRet (eng : Engine) (s : Store)
    (server location : String) (pr : PingRet) : OpResult :=
  if s.isClosed then ⟨s, none, []⟩ else
  if getCount s.allServers server ≤ 0 then
    ⟨s, some (.serverNotExist server), []⟩
  else
    let locs0 := (lookupKey s.servers server).getD []
    let locs1 :=
      if (lookupKey locs0 location).isNone then setEntry locs0 location []
      else locs0
    let mx := (findMax locs1).1
    let maxLocation := (findMax locs1).2
    let maxList := (lookupKey locs1 maxLocation).getD []
    let cur := (lookupKey locs1 location).getD []
    let mx' :=
      if mx ≠ 0 ∧ (maxList.get? (mx - 1)).map PingRet.Time = some pr.Time
      then mx - 1 else mx
    let pads :=
      if mx = 0 then []
      else ((maxList.take mx').drop cur.length).map (fun q => defaultPingRet q.Time)
    let padPrs := pads ++ [pr]
    ⟨{ s with servers :=
          setEntry s.servers server (setEntry locs1 location (cur ++ padPrs)) },
     (eng (.batchWritePingRets server location padPrs)).map Err.engine,
     [.batchWritePingRets server location padPrs]⟩

/-- `GetMonitorResult` from `store.go`: read-only, bypasses the `do`
guard.  Returns the per-location history map for the server (Go's nil
map for a missing server becomes `none`) or an error. -/
def Store.GetMonitorResult (s : Store) (username server : String) :
    Option (List (String × List PingRet)) × Option Err :=
  match lookupKey s.users username with
  | none => (none, some (.userNotExist username))
  | some u =>
    if u.MonitorServers.contains server then (lookupKey s.servers server, none)
    else (none, some (.notMonitoring server))

/-- One call to a mutating store operation, with its arguments. -/
inductive MOp where
  | addUser (username password : String)
  | updatePassword (username oldpassword newpassword : String)
  | addMonitor (username server : String)
  | delMonitor (username server : String)
  | appendPing (server location : String) (pr : PingRet)
deriving DecidableEq, Repr

/-- Run one mutating operation against a store. -/
def runMOp (eng : Engine) (s : Store) : MOp → OpResult
  | .addUser un pw => s.AddUser eng un pw
  | .updatePassword un op np => s.UpdatePassword eng un op np
  | .addMonitor un srv => s.AddMonitorServer eng un srv
  | .delMonitor un srv => s.DeleteMonitorServer eng un srv
  | .appendPing srv loc pr => s.AppendPingRet eng srv loc pr

/-- Run a sequence of mutating operations, threading the store. -/
def runOps (eng : Engine) (ops : List MOp) (s : Store) : Store :=
  ops.foldl (fun st op => (runMOp eng st op).store) s

/-- The operations the reference-count claim quantifies over:
`AddUser`, `AddMonitorServer`, `DeleteMonitorServer`. -/
def MOp.isUserMonitorOp : MOp → Bool
  | .addUser _ _ => true
  | .addMonitor _ _ => true
  | .delMonitor _ _ => true
  | _ => false

/-- Number of users whose monitor set contains `server`. -/
def countMonitors : List (String × User) → String → Nat
  | [], _ => 0
  | (_, w) :: rest, server =>
    (if w.MonitorServers.contains server then 1 else 0) + countMonitors rest server

/-- A consistent store: every reference count in `allServers` (absent
read as `0`) equals the number of users monitoring that server, and
every present entry is positive. -/
def Consistent (s : Store) : Prop :=
  (∀ srv, getCount s.allServers srv = (countMonitors s.users srv : Int)) ∧
  (∀ srv v, lookupKey s.allServers srv = some v → 0 < v)

/-- Whether `users` has an entry for `username` whose monitor set does
not contain `server`. -/
def existsUserNotMonitoring (users : List (String × User))
    (username server : String) : Bool :=
  match lookupKey users username with
  | some u => ! u.MonitorServers.contains server
  | none => false

/-! ## Association-list lemmas -/

theorem lookupKey_setEntry_self {α : Type} (m : List (String × α)) (k : String)
    (v : α) : lookupKey (setEntry m k v) k = some v := by
  induction m with
  | nil => simp [setEntry, lookupKey]
  | cons p rest ih =>
    obtain ⟨a, w⟩ := p
    by_cases h : a = k
    · simp [setEntry, h, lookupKey]
    · simp [setEntry, h, lookupKey, ih]

theorem lookupKey_setEntry_ne {α : Type} (m : List (String × α)) (k k' : String)
    (v : α) (h : k' ≠ k) : lookupKey (setEntry m k v) k' = lookupKey m k' := by
  induction m with
  | nil => simp [setEntry, lookupKey, Ne.symm h]
  | cons p rest ih =>
    obtain ⟨a, w⟩ := p
    by_cases ha : a = k
    · subst ha
      simp [setEntry, lookupKey, Ne.symm h]
    · simp only [setEntry, if_neg ha, lookupKey]
      by_cases ha' : a = k' <;> simp [ha', ih]

theorem lookupKey_delEntry_self {α : Type} (m : List (String × α)) (k : String) :
    lookupKey (delEntry m k) k = none := by
  induction m with
  | nil => simp [delEntry, lookupKey]
  | cons p rest ih =>
    obtain ⟨a, w⟩ := p
    by_cases h : a = k
    · simp [delEntry, h, ih]
    · simp [delEntry, h, lookupKey, ih]

theorem lookupKey_delEntry_ne {α : Type} (m : List (String × α)) (k k' : String)
    (h : k' ≠ k) : lookupKey (delEntry m k) k' = lookupKey m k' := by
  induction m with
  | nil => simp [delEntry]
  | cons p rest ih =>
    obtain ⟨a, w⟩ := p
    by_cases ha : a = k
    · subst ha
      simp [delEntry, lookupKey, Ne.symm h, ih]
    · simp only [delEntry, if_neg ha, lookupKey]
      by_cases ha' : a = k' <;> simp [ha', ih]

theorem getCount_setEntry_self (m : List (String × Int)) (k : String) (v : Int) :
    getCount (setEntry m k v) k = v := by
  simp [getCount, lookupKey_setEntry_self]

theorem getCount_setEntry_ne (m : List (String × Int)) (k k' : String) (v : Int)
    (h : k' ≠ k) : getCount (setEntry m k v) k' = getCount m k' := by
  simp [getCount, lookupKey_setEntry_ne m k k' v h]

theorem getCount_delEntry_self (m : List (String × Int)) (k : String) :
    getCount (delEntry m k) k = 0 := by
  simp [getCount, lookupKey_delEntry_self]

theorem getCount_delEntry_ne (m : List (String × Int)) (k k' : String)
    (h : k' ≠ k) : getCount (delEntry m k) k' = getCount m k' := by
  simp [getCount, lookupKey_delEntry_ne m k k' h]

/-! ## Counting lemmas about `countMonitors` -/

/-- Replacing the record of an existing user changes the monitor count
of each server by the difference of the two indicator values. -/
theorem countMonitors_setEntry (users : List (String × User)) (un : String)
    (u u' : User) (hu : lookupKey users un = some u) (srv : String) :
    countMonitors (setEntry users un u') srv
        + (if u.MonitorServers.contains srv then 1 else 0)
      = countMonitors users srv
        + (if u'.MonitorServers.contains srv then 1 else 0) := by
  induction users with
  | nil => simp [lookupKey] at hu
  | cons p rest ih =>
    obtain ⟨a, w⟩ := p
    by_cases ha : a = un
    · subst ha
      have hw : w = u := by simpa [lookupKey] using hu
      subst hw
      simp only [setEntry, if_pos rfl, countMonitors]
      omega
    · simp only [lookupKey, if_neg ha] at hu
      simp only [setEntry, if_neg ha, countMonitors]
      have := ih hu
      omega

/-- Adding a fresh user changes the monitor count of each server by the
new user's indicator value. -/
theorem countMonitors_setEntry_new (users : List (String × User)) (un : String)
    (u' : User) (hu : lookupKey users un = none) (srv : String) :
    countMonitors (setEntry users un u') srv
      = countMonitors users srv
        + (if u'.MonitorServers.contains srv then 1 else 0) := by
  induction users with
  | nil => simp [setEntry, countMonitors]
  | cons p rest ih =>
    obtain ⟨a, w⟩ := p
    by_cases ha : a = un
    · simp [lookupKey, ha] at hu
    · simp only [lookupKey, if_neg ha] at hu
      simp only [setEntry, if_neg ha, countMonitors, ih hu]
      omega

/-- A user that monitors `srv` witnesses `countMonitors ≥ 1`. -/
theorem countMonitors_pos (users : List (String × User)) (un : String)
    (u : User) (hu : lookupKey users un = some u) (srv : String)
    (hm : u.MonitorServers.contains srv = true) :
    1 ≤ countMonitors users srv := by
  induction users with
  | nil => simp [lookupKey] at hu
  | cons p rest ih =>
    obtain ⟨a, w⟩ := p
    by_cases ha : a = un
    · subst ha
      have hw : w = u := by simpa [lookupKey] using hu
      subst hw
      simp only [countMonitors]
      rw [if_pos hm]
      omega
    · simp only [lookupKey, if_neg ha] at hu
      have := ih hu
      simp only [countMonitors]
      omega

/-- Membership in the monitor set after removing `server`. -/
theorem contains_filter_ne (l : List String) (server s0 : String) :
    (l.filter (fun x => x ≠ server)).contains s0
      = (decide (s0 ≠ server) && l.contains s0) := by
  induction l with
  | nil => simp
  | cons a rest ih =>
    by_cases ha : a = server
    · subst ha
      by_cases h0 : s0 = a <;> simp [List.filter_cons, h0, ih]
    · by_cases h0 : s0 = a
      · subst h0
        simp [List.filter_cons, ha, ih]
      · simp [List.filter_cons, ha, List.contains_cons, h0, ih, Bool.and_comm]

/-! ## Preservation of `Consistent` by every mutating operation -/

theorem consistent_UpdatePassword (eng : Engine) (s : Store)
    (un op np : String) (hc : Consistent s) :
    Consistent (s.UpdatePassword eng un op np).store := by
  unfold Store.UpdatePassword
  split
  · exact hc
  split
  · exact hc
  next u heq =>
    split
    · exact hc
    · refine ⟨fun srv => ?_, hc.2⟩
      have h1 := countMonitors_setEntry s.users un u { u with Password := np } heq srv
      have h2 := hc.1 srv
      rw [show ({ u with Password := np } : User).MonitorServers
            = u.MonitorServers from rfl] at h1
      have hgoal : getCount s.allServers srv
          = (countMonitors (setEntry s.users un { u with Password := np }) srv : Int) := by
        omega
      exact hgoal

theorem consistent_AddUser (eng : Engine) (s : Store) (un pw : String)
    (hc : Consistent s) : Consistent (s.AddUser eng un pw).store := by
  unfold Store.AddUser
  split
  · exact hc
  split
  · exact hc
  next heq =>
    refine ⟨fun srv => ?_, hc.2⟩
    have h1 := countMonitors_setEntry_new s.users un
      { newUser with Password := pw } heq srv
    have h2 := hc.1 srv
    simp [newUser] at h1
    have hgoal : getCount s.allServers srv
        = (countMonitors (setEntry s.users un { newUser with Password := pw }) srv : Int) := by
      simp only [newUser]
      omega
    exact hgoal

theorem consistent_AppendPingRet (eng : Engine) (s : Store)
    (server loc : String) (pr : PingRet) (hc : Consistent s) :
    Consistent (s.AppendPingRet eng server loc pr).store := by
  unfold Store.AppendPingRet
  split
  · exact hc
  split
  · exact hc
  · exact hc

theorem consistent_AddMonitorServer (eng : Engine) (s : Store)
    (un server : String) (hc : Consistent s) :
    Consistent (s.AddMonitorServer eng un server).store := by
  unfold Store.AddMonitorServer
  split
  · exact hc
  split
  · exact hc
  next u heq =>
    split
    · exact hc
    next hnm =>
      have hcontains : u.MonitorServers.contains server = false := by
        cases h : u.MonitorServers.contains server
        · rfl
        · exact absurd h hnm
      refine ⟨fun srv => ?_, fun srv v hv => ?_⟩
      · have h1 := countMonitors_setEntry s.users un u
          { u with MonitorServers := server :: u.MonitorServers } heq srv
        have h2 := hc.1 srv
        rw [show ({ u with MonitorServers := server :: u.MonitorServers } : User).MonitorServers
              = server :: u.MonitorServers from rfl] at h1
        by_cases hsrv : srv = server
        · subst hsrv
          have hnotmem : srv ∉ u.MonitorServers := by simpa using hcontains
          simp [List.contains_cons, hnotmem] at h1
          have hgoal : getCount (setEntry s.allServers srv
                (getCount s.allServers srv + 1)) srv
              = (countMonitors (setEntry s.users un
                  { u with MonitorServers := srv :: u.MonitorServers }) srv : Int) := by
            rw [getCount_setEntry_self]
            omega
          exact hgoal
        · have he : (server :: u.MonitorServers).contains srv
              = u.MonitorServers.contains srv := by
            simp [List.contains_cons, hsrv]
          rw [he] at h1
          have hgoal : getCount (setEntry s.allServers server
                (getCount s.allServers server + 1)) srv
              = (countMonitors (setEntry s.users un
                  { u with MonitorServers := server :: u.MonitorServers }) srv : Int) := by
            rw [getCount_setEntry_ne _ _ _ _ hsrv]
            omega
          exact hgoal
      · by_cases hsrv : srv = server
        · subst hsrv
          have hv' : lookupKey (setEntry s.allServers srv
              (getCount s.allServers srv + 1)) srv
              = some v := hv
          rw [lookupKey_setEntry_self] at hv'
          have h2 := hc.1 srv
          have hvv : v = getCount s.allServers srv + 1 :=
            (Option.some.injEq _ _ ▸ hv').symm
          omega
        · have hv' : lookupKey (setEntry s.allServers server
              (getCount s.allServers server + 1)) srv
              = some v := hv
          rw [lookupKey_setEntry_ne _ _ _ _ hsrv] at hv'
          exact hc.2 srv v hv'

theorem consistent_DeleteMonitorServer (eng : Engine) (s : Store)
    (un server : String) (hc : Consistent s) :
    Consistent (s.DeleteMonitorServer eng un server).store := by
  unfold Store.DeleteMonitorServer
  split
  · exact hc
  split
  · exact hc
  next u heq =>
    split
    next hcont =>
      have h2s := hc.1 server
      have hpos := countMonitors_pos s.users un u heq server hcont
      have hcnt : ∀ srv, countMonitors (setEntry s.users un
            { u with MonitorServers := u.MonitorServers.filter (fun x => x ≠ server) }) srv
            + (if u.MonitorServers.contains srv then 1 else 0)
          = countMonitors s.users srv
            + (if (decide (srv ≠ server) && u.MonitorServers.contains srv) then 1 else 0) := by
        intro srv
        have h1 := countMonitors_setEntry s.users un u
          { u with MonitorServers := u.MonitorServers.filter (fun x => x ≠ server) } heq srv
        rw [show ({ u with MonitorServers :=
                u.MonitorServers.filter (fun x => x ≠ server) } : User).MonitorServers
              = u.MonitorServers.filter (fun x => x ≠ server) from rfl,
            contains_filter_ne] at h1
        exact h1
      dsimp only
      split
      next hle =>
        refine ⟨fun srv => ?_, fun srv v hv => ?_⟩
        · by_cases hsrv : srv = server
          · subst hsrv
            have hcs := hcnt srv
            have e1 : (if u.MonitorServers.contains srv then (1 : Nat) else 0) = 1 :=
              if_pos hcont
            have e2 : (if (decide (srv ≠ srv) && u.MonitorServers.contains srv)
                then (1 : Nat) else 0) = 0 := by simp
            have hle' : getCount (setEntry s.allServers srv
                (getCount s.allServers srv - 1)) srv ≤ 0 := hle
            rw [getCount_setEntry_self] at hle'
            have hgoal : getCount (delEntry (setEntry s.allServers srv
                  (getCount s.allServers srv - 1)) srv) srv
                = (countMonitors (setEntry s.users un
                    { u with MonitorServers :=
                        u.MonitorServers.filter (fun x => x ≠ srv) }) srv : Int) := by
              rw [getCount_delEntry_self]
              omega
            exact hgoal
          · have hcs := hcnt srv
            have he : (decide (srv ≠ server) && u.MonitorServers.contains srv)
                = u.MonitorServers.contains srv := by simp [hsrv]
            rw [he] at hcs
            have h2 := hc.1 srv
            have hgoal : getCount (delEntry (setEntry s.allServers server
                  (getCount s.allServers server - 1)) server) srv
                = (countMonitors (setEntry s.users un
                    { u with MonitorServers :=
                        u.MonitorServers.filter (fun x => x ≠ server) }) srv : Int) := by
              rw [getCount_delEntry_ne _ _ _ hsrv, getCount_setEntry_ne _ _ _ _ hsrv]
              omega
            exact hgoal
        · by_cases hsrv : srv = server
          · subst hsrv
            have hv' : lookupKey (delEntry (setEntry s.allServers srv
                  (getCount s.allServers srv - 1)) srv) srv = some v := hv
            rw [lookupKey_delEntry_self] at hv'
            cases hv'
          · have hv' : lookupKey (delEntry (setEntry s.allServers server
                  (getCount s.allServers server - 1)) server) srv = some v := hv
            rw [lookupKey_delEntry_ne _ _ _ hsrv,
                lookupKey_setEntry_ne _ _ _ _ hsrv] at hv'
            exact hc.2 srv v hv'
      next hgt =>
        refine ⟨fun srv => ?_, fun srv v hv => ?_⟩
        · by_cases hsrv : srv = server
          · subst hsrv
            have hcs := hcnt srv
            have e1 : (if u.MonitorServers.contains srv then (1 : Nat) else 0) = 1 :=
              if_pos hcont
            have e2 : (if (decide (srv ≠ srv) && u.MonitorServers.contains srv)
                then (1 : Nat) else 0) = 0 := by simp
            have hgoal : getCount (setEntry s.allServers srv
                  (getCount s.allServers srv - 1)) srv
                = (countMonitors (setEntry s.users un
                    { u with MonitorServers :=
                        u.MonitorServers.filter (fun x => x ≠ srv) }) srv : Int) := by
              rw [getCount_setEntry_self]
              omega
            exact hgoal
          · have hcs := hcnt srv
            have he : (decide (srv ≠ server) && u.MonitorServers.contains srv)
                = u.MonitorServers.contains srv := by simp [hsrv]
            rw [he] at hcs
            have h2 := hc.1 srv
            have hgoal : getCount (setEntry s.allServers server
                  (getCount s.allServers server - 1)) srv
                = (countMonitors (setEntry s.users un
                    { u with MonitorServers :=
                        u.MonitorServers.filter (fun x => x ≠ server) }) srv : Int) := by
              rw [getCount_setEntry_ne _ _ _ _ hsrv]
              omega
            exact hgoal
        · by_cases hsrv : srv = server
          · subst hsrv
            have hgt' : ¬ getCount (setEntry s.allServers srv
                (getCount s.allServers srv - 1)) srv ≤ 0 := hgt
            rw [getCount_setEntry_self] at hgt'
            have hv' : lookupKey (setEntry s.allServers srv
                  (getCount s.allServers srv - 1)) srv = some v := hv
            rw [lookupKey_setEntry_self] at hv'
            have hvv : getCount s.allServers srv - 1 = v := by
              injection hv'
            omega
          · have hv' : lookupKey (setEntry s.allServers server
                  (getCount s.allServers server - 1)) srv = some v := hv
            rw [lookupKey_setEntry_ne _ _ _ _ hsrv] at hv'
            exact hc.2 srv v hv'
    next hcontf =>
      have hcnt : ∀ srv, countMonitors (setEntry s.users un u) srv
          = countMonitors s.users srv := by
        intro srv
        have h1 := countMonitors_setEntry s.users un u u heq srv
        omega
      split
      next hle =>
        refine ⟨fun srv => ?_, fun srv v hv => ?_⟩
        · by_cases hsrv : srv = server
          · subst hsrv
            have h2 := hc.1 srv
            have hcs := hcnt srv
            have hgoal : getCount (delEntry s.allServers srv) srv
                = (countMonitors (setEntry s.users un u) srv : Int) := by
              rw [getCount_delEntry_self]
              omega
            exact hgoal
          · have hcs := hcnt srv
            have h2 := hc.1 srv
            have hgoal : getCount (delEntry s.allServers server) srv
                = (countMonitors (setEntry s.users un u) srv : Int) := by
              rw [getCount_delEntry_ne _ _ _ hsrv]
              omega
            exact hgoal
        · by_cases hsrv : srv = server
          · subst hsrv
            have hv' : lookupKey (delEntry s.allServers srv) srv = some v := hv
            rw [lookupKey_delEntry_self] at hv'
            cases hv'
          · have hv' : lookupKey (delEntry s.allServers server) srv = some v := hv
            rw [lookupKey_delEntry_ne _ _ _ hsrv] at hv'
            exact hc.2 srv v hv'
      next hgt =>
        refine ⟨fun srv => ?_, fun srv v hv => ?_⟩
        · have hcs := hcnt srv
          have h2 := hc.1 srv
          have hgoal : getCount s.allServers srv
              = (countMonitors (setEntry s.users un u) srv : Int) := by omega
          exact hgoal
        · exact hc.2 srv v hv

theorem consistent_runMOp (eng : Engine) (s : Store) (op : MOp)
    (hc : Consistent s) : Consistent (runMOp eng s op).store := by
  cases op with
  | addUser un pw => exact consistent_AddUser eng s un pw hc
  | updatePassword un op np => exact consistent_UpdatePassword eng s un op np hc
  | addMonitor un srv => exact consistent_AddMonitorServer eng s un srv hc
  | delMonitor un srv => exact consistent_DeleteMonitorServer eng s un srv hc
  | appendPing srv loc pr => exact consistent_AppendPingRet eng s srv loc pr hc

theorem consistent_runOps (eng : Engine) (ops : List MOp) (s : Store)
    (hc : Consistent s) : Consistent (runOps eng ops s) := by
  induction ops generalizing s with
  | nil => exact hc
  | cons op rest ih => exact ih _ (consistent_runMOp eng s op hc)

/-- The store a fresh, engine-less bind would produce: everything
empty, not closed. -/
def emptyStore : Store :=
  { servers := [], users := [], allServers := [],
    addServerChan := [], kickServerChan := [], isClosed := false }

theorem consistent_emptyStore : Consistent emptyStore := by
  refine ⟨fun srv => ?_, fun srv v h => ?_⟩
  · simp [emptyStore, getCount, lookupKey, countMonitors]
  · simp [emptyStore, lookupKey] at h

/-- C1: in every state reachable from a consistent initial state by any
sequence of `AddUser`, `AddMonitorServer` and `DeleteMonitorServer`
calls (with any engine behaviour), `allServers[srv]` — an absent entry
read as zero — equals the number of users whose monitor set contains
`srv`. -/
theorem refCount_invariant (eng : Engine) (ops : List MOp) (s : Store)
    (hinit : Consistent s)
    (hops : ∀ op ∈ ops, op.isUserMonitorOp = true) :
    ∀ srv, getCount (runOps eng ops s).allServers srv
      = (countMonitors (runOps eng ops s).users srv : Int) :=
  (consistent_runOps eng ops s hinit).1

/-- Witness for C1 at a concrete run: add two users, subscribe both to
a server, unsubscribe one. -/
theorem refCount_invariant_witness :
    getCount (runOps okEngine
        [MOp.addUser "a" "p", MOp.addUser "b" "q",
         MOp.addMonitor "a" "x", MOp.addMonitor "b" "x",
         MOp.delMonitor "a" "x"] emptyStore).allServers "x"
      = (countMonitors (runOps okEngine
        [MOp.addUser "a" "p", MOp.addUser "b" "q",
         MOp.addMonitor "a" "x", MOp.addMonitor "b" "x",
         MOp.delMonitor "a" "x"] emptyStore).users "x" : Int) :=
  refCount_invariant okEngine
    [MOp.addUser "a" "p", MOp.addUser "b" "q",
     MOp.addMonitor "a" "x", MOp.addMonitor "b" "x",
     MOp.delMonitor "a" "x"] emptyStore
    consistent_emptyStore (by decide) "x"

/-- The store of the padding scenario: user `alice` exists and monitors
`srv1`, `allServers["srv1"] = 1`, no samples yet. -/
def aliceStore : Store :=
  { servers := [],
    users := [("alice", { Password := "pw1", MonitorServers := ["srv1"] })],
    allServers := [("srv1", 1)],
    addServerChan := ["srv1"], kickServerChan := [], isClosed := false }

/-- C3: from `aliceStore`, `AppendPingRet("srv1","eu",{t1,10})` succeeds
and appends exactly that sample with no padding; the following
`AppendPingRet("srv1","us",{t2,12})` succeeds and appends to `us` the
two-element batch `[{t1,"0.000"}, {t2,12}]`, and exactly that batch is
passed to the engine's `BatchWritePingRets`. -/
theorem padding_scenario :
    (aliceStore.AppendPingRet okEngine "srv1" "eu" ⟨"t1", "10"⟩).err = none ∧
    (aliceStore.AppendPingRet okEngine "srv1" "eu" ⟨"t1", "10"⟩).calls
      = [.batchWritePingRets "srv1" "eu" [⟨"t1", "10"⟩]] ∧
    lookupKey ((lookupKey
        (aliceStore.AppendPingRet okEngine "srv1" "eu" ⟨"t1", "10"⟩).store.servers
        "srv1").getD []) "eu" = some [⟨"t1", "10"⟩] ∧
    ((aliceStore.AppendPingRet okEngine "srv1" "eu" ⟨"t1", "10"⟩).store.AppendPingRet
        okEngine "srv1" "us" ⟨"t2", "12"⟩).err = none ∧
    ((aliceStore.AppendPingRet okEngine "srv1" "eu" ⟨"t1", "10"⟩).store.AppendPingRet
        okEngine "srv1" "us" ⟨"t2", "12"⟩).calls
      = [.batchWritePingRets "srv1" "us" [⟨"t1", "0.000"⟩, ⟨"t2", "12"⟩]] ∧
    lookupKey ((lookupKey
        ((aliceStore.AppendPingRet okEngine "srv1" "eu" ⟨"t1", "10"⟩).store.AppendPingRet
          okEngine "srv1" "us" ⟨"t2", "12"⟩).store.servers
        "srv1").getD []) "us" = some [⟨"t1", "0.000"⟩, ⟨"t2", "12"⟩] := by
  refine ⟨rfl, ?_, ?_, rfl, ?_, ?_⟩ <;> decide

/-- C5: once `Close` has set the closed flag, every mutating operation
returns a nil error, makes no engine call and leaves the whole store
(users, servers, allServers and both channels) unchanged, while the
read-only queries `GetUser` and `GetMonitorResult` answer exactly as
they did before `Close`. -/
theorem close_makes_mutations_noops (eng : Engine) (s : Store) (mop : MOp)
    (un srv : String) :
    runMOp eng s.Close mop = ⟨s.Close, none, []⟩ ∧
    s.Close.GetUser un = s.GetUser un ∧
    s.Close.GetMonitorResult un srv = s.GetMonitorResult un srv := by
  refine ⟨?_, rfl, rfl⟩
  cases mop <;> rfl

/-- C9: on an open store, `DeleteMonitorServer(u, s)` for an existing
user that does not monitor `s`, while `s` has no `allServers` entry,
still pushes `s` to `KickServerChan` (no reference count transitioned)
and still calls the engine's `WriteUser` for `u`, returning that
write's result. -/
theorem deleteMonitor_phantom_kick (eng : Engine) (s : Store)
    (un srv : String) (u : User) (hopen : s.isClosed = false)
    (hu : lookupKey s.users un = some u)
    (hnm : u.MonitorServers.contains srv = false)
    (habs : lookupKey s.allServers srv = none) :
    (s.DeleteMonitorServer eng un srv).store.kickServerChan
        = s.kickServerChan ++ [srv] ∧
    (s.DeleteMonitorServer eng un srv).calls = [.writeUser un u] ∧
    (s.DeleteMonitorServer eng un srv).err
        = (eng (.writeUser un u)).map Err.engine := by
  have hcnt : getCount s.allServers srv = 0 := by simp [getCount, habs]
  have hnotmem : srv ∉ u.MonitorServers := by simpa using hnm
  unfold Store.DeleteMonitorServer
  simp [hopen, hu, hnotmem, hcnt]

/-- Witness for C9: `alice` exists with an empty monitor set and `x`
has no reference count; deleting pushes the kick anyway. -/
theorem deleteMonitor_phantom_kick_witness :
    (aliceStore.DeleteMonitorServer okEngine "alice" "x").store.kickServerChan
        = aliceStore.kickServerChan ++ ["x"] ∧
    (aliceStore.DeleteMonitorServer okEngine "alice" "x").calls
      = [.writeUser "alice" { Password := "pw1", MonitorServers := ["srv1"] }] ∧
    (aliceStore.DeleteMonitorServer okEngine "alice" "x").err
      = (okEngine (.writeUser "alice"
          { Password := "pw1", MonitorServers := ["srv1"] })).map Err.engine :=
  deleteMonitor_phantom_kick okEngine aliceStore "alice" "x"
    { Password := "pw1", MonitorServers := ["srv1"] }
    (by decide) (by decide) (by decide) (by decide)

/-- C10: on an open store, `UpdatePassword` for a username that is not
present returns a nil error, performs no engine write, and leaves all
store state unchanged. -/
theorem updatePassword_missing_user (eng : Engine) (s : Store)
    (un op np : String) (hopen : s.isClosed = false)
    (hu : lookupKey s.users un = none) :
    s.UpdatePassword eng un op np = ⟨s, none, []⟩ := by
  unfold Store.UpdatePassword
  simp [hopen, hu]

/-- Witness for C10 on the concrete scenario store. -/
theorem updatePassword_missing_user_witness :
    aliceStore.UpdatePassword okEngine "bob" "a" "b" = ⟨aliceStore, none, []⟩ :=
  updatePassword_missing_user okEngine aliceStore "bob" "a" "b"
    (by decide) (by decide)

/-- C8: on an open store, `AddUser` with a taken username returns the
AlreadyExists error, makes no engine call and leaves the whole store
(including the existing record) unchanged; with a fresh username it
stores a user with the given password and empty monitor set and
persists it through the engine's `WriteUser`. -/
theorem addUser_idempotent_rejecting (eng : Engine) (s : Store)
    (un pw : String) (hopen : s.isClosed = false) :
    (∀ u, lookupKey s.users un = some u →
      s.AddUser eng un pw = ⟨s, some (.userAlreadyExist un), []⟩) ∧
    (lookupKey s.users un = none →
      (s.AddUser eng un pw).store
          = { s with users :=
                setEntry s.users un { Password := pw, MonitorServers := [] } } ∧
      (s.AddUser eng un pw).calls
          = [.writeUser un { Password := pw, MonitorServers := [] }] ∧
      (s.AddUser eng un pw).err
          = (eng (.writeUser un
              { Password := pw, MonitorServers := [] })).map Err.engine) := by
  constructor
  · intro u hu
    unfold Store.AddUser
    simp [hopen, hu]
  · intro hu
    unfold Store.AddUser
    simp [hopen, hu, newUser]

/-- Witness for C8: re-adding `alice` is rejected without change;
adding `bob` stores the new record. -/
theorem addUser_idempotent_rejecting_witness :
    aliceStore.AddUser okEngine "alice" "zz"
        = ⟨aliceStore, some (.userAlreadyExist "alice"), []⟩ ∧
    (aliceStore.AddUser okEngine "bob" "pw2").store
        = { aliceStore with
            users := setEntry aliceStore.users "bob"
              { Password := "pw2", MonitorServers := [] } } :=
  ⟨(addUser_idempotent_rejecting okEngine aliceStore "alice" "zz"
      (by decide)).1 { Password := "pw1", MonitorServers := ["srv1"] } (by decide),
   ((addUser_idempotent_rejecting okEngine aliceStore "bob" "pw2"
      (by decide)).2 (by decide)).1⟩

/-- The lazily-created location list read back at `loc` is whatever the
original per-server map held there (empty when absent). -/
theorem lookupKey_ensure (locs0 : List (String × List PingRet)) (loc : String) :
    (lookupKey (if (lookupKey locs0 loc).isNone then setEntry locs0 loc []
        else locs0) loc).getD []
      = (lookupKey locs0 loc).getD [] := by
  cases h : lookupKey locs0 loc with
  | none => simp [h, lookupKey_setEntry_self]
  | some x => simp [h]

/-- An error propagated from the engine is never the server-not-found
error. -/
theorem map_engine_ne_serverNotExist (x : Option String) (srv : String) :
    x.map Err.engine ≠ some (.serverNotExist srv) := by
  cases x <;> simp

/-- C7: on an open store, `AppendPingRet` fails with the
server-not-found error and leaves everything unchanged exactly when
`allServers[server] ≤ 0` (absent read as zero); when the count is
positive it never returns that error and the location's sequence
becomes its old value, then some pad samples, then the incoming
sample. -/
theorem appendPingRet_precondition (eng : Engine) (s : Store)
    (server loc : String) (pr : PingRet) (hopen : s.isClosed = false) :
    (getCount s.allServers server ≤ 0 →
      s.AppendPingRet eng server loc pr
        = ⟨s, some (.serverNotExist server), []⟩) ∧
    (0 < getCount s.allServers server →
      (s.AppendPingRet eng server loc pr).err ≠ some (.serverNotExist server) ∧
      ∃ pads, lookupKey ((lookupKey
            (s.AppendPingRet eng server loc pr).store.servers server).getD []) loc
        = some ((((lookupKey ((lookupKey s.servers server).getD []) loc).getD [])
            ++ pads) ++ [pr])) := by
  constructor
  · intro hle
    unfold Store.AppendPingRet
    rw [if_neg (by simp [hopen]), if_pos hle]
  · intro hgt
    have hnle : ¬ getCount s.allServers server ≤ 0 := not_le.mpr hgt
    unfold Store.AppendPingRet
    rw [if_neg (by simp [hopen]), if_neg hnle]
    constructor
    · dsimp only
      exact map_engine_ne_serverNotExist _ _
    · dsimp only
      simp only [lookupKey_setEntry_self, Option.getD_some, lookupKey_ensure]
      exact ⟨_, by rw [List.append_assoc]⟩

/-- Witness for C7: appending to an unmonitored server fails and
changes nothing; appending to the monitored `srv1` does not return the
server-not-found error. -/
theorem appendPingRet_precondition_witness :
    emptyStore.AppendPingRet okEngine "x" "eu" ⟨"t", "1"⟩
        = ⟨emptyStore, some (.serverNotExist "x"), []⟩ ∧
    (aliceStore.AppendPingRet okEngine "srv1" "eu" ⟨"t", "1"⟩).err
        ≠ some (.serverNotExist "srv1") :=
  ⟨(appendPingRet_precondition okEngine emptyStore "x" "eu" ⟨"t", "1"⟩
      (by decide)).1 (by decide),
   ((appendPingRet_precondition okEngine aliceStore "srv1" "eu" ⟨"t", "1"⟩
      (by decide)).2 (by decide)).1⟩

/-- An engine whose writes always fail with a fixed message. -/
def failEngine : Engine := fun _ => some "disk full"

/-- C6: for every mutating operation, the resulting in-memory state and
the engine calls made are independent of the engine's answers (the
mutation is applied before — and never rolled back after — the
persistence call), and whenever the operation made its one engine call
its returned error is exactly that call's result, propagated
unchanged. -/
theorem no_rollback (eng : Engine) (s : Store) (mop : MOp) :
    (runMOp eng s mop).store = (runMOp okEngine s mop).store ∧
    (runMOp eng s mop).calls = (runMOp okEngine s mop).calls ∧
    (∀ c, (runMOp eng s mop).calls = [c] →
      (runMOp eng s mop).err = (eng c).map Err.engine) := by
  cases mop with
  | addUser un pw =>
    by_cases hcl : s.isClosed = true
    · refine ⟨by simp [runMOp, Store.AddUser, hcl],
        by simp [runMOp, Store.AddUser, hcl], fun c hc => ?_⟩
      simp [runMOp, Store.AddUser, hcl] at hc
    · cases hu : lookupKey s.users un with
      | some u =>
        refine ⟨by simp [runMOp, Store.AddUser, hcl, hu],
          by simp [runMOp, Store.AddUser, hcl, hu], fun c hc => ?_⟩
        simp [runMOp, Store.AddUser, hcl, hu] at hc
      | none =>
        refine ⟨by simp [runMOp, Store.AddUser, hcl, hu],
          by simp [runMOp, Store.AddUser, hcl, hu], fun c hc => ?_⟩
        simp [runMOp, Store.AddUser, hcl, hu] at hc
        subst hc
        simp [runMOp, Store.AddUser, hcl, hu]
  | updatePassword un op np =>
    by_cases hcl : s.isClosed = true
    · refine ⟨by simp [runMOp, Store.UpdatePassword, hcl],
        by simp [runMOp, Store.UpdatePassword, hcl], fun c hc => ?_⟩
      simp [runMOp, Store.UpdatePassword, hcl] at hc
    · cases hu : lookupKey s.users un with
      | none =>
        refine ⟨by simp [runMOp, Store.UpdatePassword, hcl, hu],
          by simp [runMOp, Store.UpdatePassword, hcl, hu], fun c hc => ?_⟩
        simp [runMOp, Store.UpdatePassword, hcl, hu] at hc
      | some u =>
        by_cases hp : u.Password = op
        · refine ⟨by simp [runMOp, Store.UpdatePassword, hcl, hu, hp],
            by simp [runMOp, Store.UpdatePassword, hcl, hu, hp], fun c hc => ?_⟩
          simp [runMOp, Store.UpdatePassword, hcl, hu, hp] at hc
          subst hc
          simp [runMOp, Store.UpdatePassword, hcl, hu, hp]
        · refine ⟨by simp [runMOp, Store.UpdatePassword, hcl, hu, hp],
            by simp [runMOp, Store.UpdatePassword, hcl, hu, hp], fun c hc => ?_⟩
          simp [runMOp, Store.UpdatePassword, hcl, hu, hp] at hc
  | addMonitor un srv =>
    by_cases hcl : s.isClosed = true
    · refine ⟨by simp [runMOp, Store.AddMonitorServer, hcl],
        by simp [runMOp, Store.AddMonitorServer, hcl], fun c hc => ?_⟩
      simp [runMOp, Store.AddMonitorServer, hcl] at hc
    · cases hu : lookupKey s.users un with
      | none =>
        refine ⟨by simp [runMOp, Store.AddMonitorServer, hcl, hu],
          by simp [runMOp, Store.AddMonitorServer, hcl, hu], fun c hc => ?_⟩
        simp [runMOp, Store.AddMonitorServer, hcl, hu] at hc
      | some u =>
        by_cases hm : u.MonitorServers.contains srv = true
        · have hmem : srv ∈ u.MonitorServers := by simpa using hm
          refine ⟨by simp [runMOp, Store.AddMonitorServer, hcl, hu, hmem],
            by simp [runMOp, Store.AddMonitorServer, hcl, hu, hmem], fun c hc => ?_⟩
          simp [runMOp, Store.AddMonitorServer, hcl, hu, hmem] at hc
        · have hmem : srv ∉ u.MonitorServers := by simpa using hm
          refine ⟨by simp [runMOp, Store.AddMonitorServer, hcl, hu, hmem],
            by simp [runMOp, Store.AddMonitorServer, hcl, hu, hmem], fun c hc => ?_⟩
          simp [runMOp, Store.AddMonitorServer, hcl, hu, hmem] at hc
          subst hc
          simp [runMOp, Store.AddMonitorServer, hcl, hu, hmem]
  | delMonitor un srv =>
    by_cases hcl : s.isClosed = true
    · refine ⟨by simp [runMOp, Store.DeleteMonitorServer, hcl],
        by simp [runMOp, Store.DeleteMonitorServer, hcl], fun c hc => ?_⟩
      simp [runMOp, Store.DeleteMonitorServer, hcl] at hc
    · cases hu : lookupKey s.users un with
      | none =>
        refine ⟨by simp [runMOp, Store.DeleteMonitorServer, hcl, hu],
          by simp [runMOp, Store.DeleteMonitorServer, hcl, hu], fun c hc => ?_⟩
        simp [runMOp, Store.DeleteMonitorServer, hcl, hu] at hc
      | some u =>
        by_cases hm : u.MonitorServers.contains srv = true
        · have hmem : srv ∈ u.MonitorServers := by simpa using hm
          by_cases hk : getCount (setEntry s.allServers srv
              (getCount s.allServers srv - 1)) srv ≤ 0
          · refine ⟨by simp [runMOp, Store.DeleteMonitorServer, hcl, hu, hmem, hk],
              by simp [runMOp, Store.DeleteMonitorServer, hcl, hu, hmem, hk],
              fun c hc => ?_⟩
            simp [runMOp, Store.DeleteMonitorServer, hcl, hu, hmem, hk] at hc
            subst hc
            simp [runMOp, Store.DeleteMonitorServer, hcl, hu, hmem, hk]
          · refine ⟨by simp [runMOp, Store.DeleteMonitorServer, hcl, hu, hmem, hk],
              by simp [runMOp, Store.DeleteMonitorServer, hcl, hu, hmem, hk],
              fun c hc => ?_⟩
            simp [runMOp, Store.DeleteMonitorServer, hcl, hu, hmem, hk] at hc
            subst hc
            simp [runMOp, Store.DeleteMonitorServer, hcl, hu, hmem, hk]
        · have hmem : srv ∉ u.MonitorServers := by simpa using hm
          by_cases hk : getCount s.allServers srv ≤ 0
          · refine ⟨by simp [runMOp, Store.DeleteMonitorServer, hcl, hu, hmem, hk],
              by simp [runMOp, Store.DeleteMonitorServer, hcl, hu, hmem, hk],
              fun c hc => ?_⟩
            simp [runMOp, Store.DeleteMonitorServer, hcl, hu, hmem, hk] at hc
            subst hc
            simp [runMOp, Store.DeleteMonitorServer, hcl, hu, hmem, hk]
          · refine ⟨by simp [runMOp, Store.DeleteMonitorServer, hcl, hu, hmem, hk],
              by simp [runMOp, Store.DeleteMonitorServer, hcl, hu, hmem, hk],
              fun c hc => ?_⟩
            simp [runMOp, Store.DeleteMonitorServer, hcl, hu, hmem, hk] at hc
            subst hc
            simp [runMOp, Store.DeleteMonitorServer, hcl, hu, hmem, hk]
  | appendPing srv loc pr =>
    by_cases hcl : s.isClosed = true
    · refine ⟨by simp [runMOp, Store.AppendPingRet, hcl],
        by simp [runMOp, Store.AppendPingRet, hcl], fun c hc => ?_⟩
      simp [runMOp, Store.AppendPingRet, hcl] at hc
    · by_cases hk : getCount s.allServers srv ≤ 0
      · refine ⟨by simp [runMOp, Store.AppendPingRet, hcl, hk],
          by simp [runMOp, Store.AppendPingRet, hcl, hk], fun c hc => ?_⟩
        simp [runMOp, Store.AppendPingRet, hcl, hk] at hc
      · refine ⟨by simp [runMOp, Store.AppendPingRet, hcl, hk],
          by simp [runMOp, Store.AppendPingRet, hcl, hk], fun c hc => ?_⟩
        simp [runMOp, Store.AppendPingRet, hcl, hk] at hc
        subst hc
        simp [runMOp, Store.AppendPingRet, hcl, hk]

/-- Witness for C6: a failing engine leaves the same mutated state as a
succeeding one, and the failure is returned unchanged. -/
theorem no_rollback_witness :
    (runMOp failEngine aliceStore (MOp.addUser "bob" "p")).store
        = (runMOp okEngine aliceStore (MOp.addUser "bob" "p")).store ∧
    (runMOp failEngine aliceStore (MOp.addUser "bob" "p")).err
        = some (Err.engine "disk full") :=
  ⟨(no_rollback failEngine aliceStore (MOp.addUser "bob" "p")).1,
   (no_rollback failEngine aliceStore (MOp.addUser "bob" "p")).2.2
     (EngineCall.writeUser "bob" { Password := "p", MonitorServers := [] })
     (by decide)⟩

/-- The max-finding fold either never moves off its accumulator or
lands on an entry of the list whose value has the reported length. -/
theorem foldl_findMax_result (locs : List (String × List PingRet))
    (acc : Nat × String) :
    locs.foldl (fun a p => if p.2.length > a.1 then (p.2.length, p.1) else a) acc
        = acc
    ∨ ∃ M, ((locs.foldl (fun a p => if p.2.length > a.1 then (p.2.length, p.1)
          else a) acc).2, M) ∈ locs
        ∧ M.length = (locs.foldl (fun a p => if p.2.length > a.1
            then (p.2.length, p.1) else a) acc).1 := by
  induction locs generalizing acc with
  | nil => exact Or.inl rfl
  | cons p rest ih =>
    obtain ⟨k, v⟩ := p
    simp only [List.foldl_cons]
    by_cases h : v.length > acc.1
    · rw [if_pos h]
      rcases ih (v.length, k) with h1 | h1
      · rw [h1]
        exact Or.inr ⟨v, List.mem_cons_self _ _, rfl⟩
      · obtain ⟨M, hmem, hlen⟩ := h1
        exact Or.inr ⟨M, List.mem_cons_of_mem _ hmem, hlen⟩
    · rw [if_neg h]
      rcases ih acc with h1 | h1
      · exact Or.inl h1
      · obtain ⟨M, hmem, hlen⟩ := h1
        exact Or.inr ⟨M, List.mem_cons_of_mem _ hmem, hlen⟩

/-- With duplicate-free keys, a member entry is what lookup returns. -/
theorem lookupKey_of_mem_nodup {α : Type} (m : List (String × α)) (k : String)
    (v : α) (hnd : (m.map Prod.fst).Nodup) (hmem : (k, v) ∈ m) :
    lookupKey m k = some v := by
  induction m with
  | nil => cases hmem
  | cons p rest ih =>
    obtain ⟨a, w⟩ := p
    simp only [List.map_cons, List.nodup_cons] at hnd
    rcases List.mem_cons.mp hmem with h | h
    · cases h
      simp [lookupKey]
    · have ha : a ≠ k := by
        intro hak
        subst hak
        exact hnd.1 (List.mem_map_of_mem Prod.fst h)
      simp only [lookupKey, if_neg ha]
      exact ih hnd.2 h

/-- When the per-server location map has duplicate-free keys and the
maximum length is positive, `maxLocation` looks up to a list of exactly
`maxLength` samples. -/
theorem findMax_lookup (locs : List (String × List PingRet))
    (hnd : (locs.map Prod.fst).Nodup) (hmx : (findMax locs).1 ≠ 0) :
    ∃ M, lookupKey locs (findMax locs).2 = some M
      ∧ M.length = (findMax locs).1 := by
  rcases foldl_findMax_result locs (0, "") with h | h
  · exact absurd (by rw [findMax, h]) hmx
  · obtain ⟨M, hmem, hlen⟩ := h
    exact ⟨M, lookupKey_of_mem_nodup _ _ _ hnd hmem, hlen⟩

/-- C4: for a monitored server on an open store, with `maxLength`
(`mx`) positive, the pad target is `mx - 1` when the longest location's
last sample carries the incoming sample's `Time` (so placeholders stop
at index `mx - 2`), and `mx` otherwise; each placeholder copies the
longest location's `Time` at its index with the sentinel ping
`"0.000"`, and the incoming sample is appended after the placeholders. -/
theorem same_tick_pad_guard (eng : Engine) (s : Store) (server loc : String)
    (pr : PingRet) (hopen : s.isClosed = false)
    (hmon : 0 < getCount s.allServers server)
    (locs1 : List (String × List PingRet))
    (hlocs1 : locs1 = (if (lookupKey ((lookupKey s.servers server).getD [])
          loc).isNone
        then setEntry ((lookupKey s.servers server).getD []) loc []
        else (lookupKey s.servers server).getD []))
    (hnd : (locs1.map Prod.fst).Nodup)
    (mx : Nat) (hmx : mx = (findMax locs1).1) (hmxpos : mx ≠ 0)
    (maxList cur : List PingRet)
    (hmaxList : lookupKey locs1 (findMax locs1).2 = some maxList)
    (hcur : cur = (lookupKey locs1 loc).getD []) :
    ((maxList.get? (mx - 1)).map PingRet.Time = some pr.Time →
      ∃ pads, lookupKey ((lookupKey
            (s.AppendPingRet eng server loc pr).store.servers server).getD [])
            loc
          = some (cur ++ pads ++ [pr]) ∧
        pads.length = (mx - 1) - cur.length ∧
        ∀ i, i < pads.length →
          pads.get? i = (maxList.get? (cur.length + i)).map
            (fun q => defaultPingRet q.Time)) ∧
    ((maxList.get? (mx - 1)).map PingRet.Time ≠ some pr.Time →
      ∃ pads, lookupKey ((lookupKey
            (s.AppendPingRet eng server loc pr).store.servers server).getD [])
            loc
          = some (cur ++ pads ++ [pr]) ∧
        pads.length = mx - cur.length ∧
        ∀ i, i < pads.length →
          pads.get? i = (maxList.get? (cur.length + i)).map
            (fun q => defaultPingRet q.Time)) := by
  have hlen : maxList.length = mx := by
    obtain ⟨M, hM, hMl⟩ := findMax_lookup locs1 hnd (by rw [← hmx]; exact hmxpos)
    rw [hM] at hmaxList
    injection hmaxList with hMm
    rw [← hMm, hMl, hmx]
  have hkey : lookupKey ((lookupKey
        (s.AppendPingRet eng server loc pr).store.servers server).getD []) loc
      = some (cur ++ (((maxList.take (if mx ≠ 0 ∧
            (maxList.get? (mx - 1)).map PingRet.Time = some pr.Time
          then mx - 1 else mx)).drop cur.length).map
          (fun q => defaultPingRet q.Time) ++ [pr])) := by
    unfold Store.AppendPingRet
    rw [if_neg (by simp [hopen]), if_neg (not_le.mpr hmon)]
    dsimp only
    rw [← hlocs1, ← hmx, hmaxList, Option.getD_some, ← hcur,
      lookupKey_setEntry_self, Option.getD_some, lookupKey_setEntry_self,
      if_neg hmxpos]
  constructor
  · intro hsame
    rw [if_pos ⟨hmxpos, hsame⟩] at hkey
    refine ⟨((maxList.take (mx - 1)).drop cur.length).map
        (fun q => defaultPingRet q.Time),
      by rw [hkey, List.append_assoc], ?_, ?_⟩
    · simp only [List.length_map, List.length_drop, List.length_take, hlen]
      omega
    · intro i hi
      simp only [List.length_map, List.length_drop, List.length_take, hlen] at hi
      rw [List.get?_eq_getElem?, List.get?_eq_getElem?, List.getElem?_map,
        List.getElem?_drop, List.getElem?_take_of_lt (by omega)]
  · intro hdiff
    rw [if_neg (fun hand => hdiff hand.2)] at hkey
    refine ⟨((maxList.take mx).drop cur.length).map
        (fun q => defaultPingRet q.Time),
      by rw [hkey, List.append_assoc], ?_, ?_⟩
    · simp only [List.length_map, List.length_drop, List.length_take, hlen]
      omega
    · intro i hi
      simp only [List.length_map, List.length_drop, List.length_take, hlen] at hi
      rw [List.get?_eq_getElem?, List.get?_eq_getElem?, List.getElem?_map,
        List.getElem?_drop, List.getElem?_take_of_lt (by omega)]

/-- The store after the scenario's first append: `srv1` has one `eu`
sample at time `t1`. -/
def aliceStoreEu : Store :=
  (aliceStore.AppendPingRet okEngine "srv1" "eu" ⟨"t1", "10"⟩).store

/-- Witness for C4 in the same-tick case: the longest location `eu`
ends at the incoming time `t1`, so the target drops to `mx - 1 = 0` and
`us` receives no placeholder, only the incoming sample. -/
theorem same_tick_pad_guard_witness :
    ∃ pads, lookupKey ((lookupKey
          (aliceStoreEu.AppendPingRet okEngine "srv1" "us"
            ⟨"t1", "5"⟩).store.servers "srv1").getD []) "us"
        = some (([] : List PingRet) ++ pads ++ [⟨"t1", "5"⟩]) ∧
      pads.length = (1 - 1) - ([] : List PingRet).length ∧
      ∀ i, i < pads.length →
        pads.get? i = (([⟨"t1", "10"⟩] : List PingRet).get?
            (([] : List PingRet).length + i)).map
          (fun q => defaultPingRet q.Time) :=
  (same_tick_pad_guard okEngine aliceStoreEu "srv1" "us" ⟨"t1", "5"⟩
    (by decide) (by decide)
    [("eu", [⟨"t1", "10"⟩]), ("us", [])] (by decide) (by decide)
    1 (by decide) (by decide)
    [⟨"t1", "10"⟩] [] (by decide) (by decide)).1 (by decide)

/-- Counterexample to C2 as stated: `DeleteMonitorServer("alice","x")`
on a consistent open store where `alice` exists but does not monitor
`"x"` and `"x"` has no `allServers` entry pushes `"x"` to
`KickServerChan` although `"x"`'s reference count was zero/absent before
the call and zero/absent after it — no transition of its reference
count to zero-or-below (it was never positive) accompanies the push,
contradicting "is pushed to KickServerChan exactly once for each
transition of its reference count to zero-or-below … no other calls
push to either channel". -/
theorem chan_pushes_counterexample :
    (aliceStore.DeleteMonitorServer okEngine "alice" "x").store.kickServerChan
        = aliceStore.kickServerChan ++ ["x"] ∧
    getCount aliceStore.allServers "x" = 0 ∧
    getCount (aliceStore.DeleteMonitorServer okEngine
        "alice" "x").store.allServers "x" = 0 ∧
    (aliceStore.DeleteMonitorServer okEngine "alice" "x").store.addServerChan
        = aliceStore.addServerChan := by
  refine ⟨?_, ?_, ?_, ?_⟩ <;> decide

theorem consistent_aliceStore : Consistent aliceStore := by
  constructor
  · intro srv
    by_cases h : srv = "srv1"
    · subst h
      decide
    · simp [aliceStore, getCount, lookupKey, countMonitors, Ne.symm h, h]
  · intro srv v hv
    by_cases h : srv = "srv1"
    · subst h
      simp [aliceStore, lookupKey] at hv
      omega
    · simp [aliceStore, lookupKey, Ne.symm h] at hv

/-- C2 (amended): on an open consistent store, `AddMonitorServer`
pushes its server to `AddServerChan` exactly when the call moves the
server's reference count from absent/zero to positive, and never
touches `KickServerChan`; `DeleteMonitorServer` never touches
`AddServerChan` and pushes its server to `KickServerChan` exactly when
either the call moves the count from positive to zero-or-below, or —
the degenerate case C2 missed — the named user exists without
monitoring the server while the count is already absent/zero; right
after any kick push the server's `allServers` entry is absent; the
remaining operations never push to either channel. -/
theorem chan_pushes (eng : Engine) (s : Store) (hopen : s.isClosed = false)
    (hc : Consistent s) :
    (∀ un srv,
      (runMOp eng s (MOp.addMonitor un srv)).store.kickServerChan
          = s.kickServerChan ∧
      (runMOp eng s (MOp.addMonitor un srv)).store.addServerChan
          = s.addServerChan ++
            (if getCount s.allServers srv ≤ 0 ∧
                0 < getCount (runMOp eng s
                  (MOp.addMonitor un srv)).store.allServers srv
             then [srv] else [])) ∧
    (∀ un srv,
      (runMOp eng s (MOp.delMonitor un srv)).store.addServerChan
          = s.addServerChan ∧
      (runMOp eng s (MOp.delMonitor un srv)).store.kickServerChan
          = s.kickServerChan ++
            (if (0 < getCount s.allServers srv ∧
                  getCount (runMOp eng s
                    (MOp.delMonitor un srv)).store.allServers srv ≤ 0)
                ∨ (existsUserNotMonitoring s.users un srv = true ∧
                  getCount s.allServers srv = 0)
             then [srv] else []) ∧
      ((runMOp eng s (MOp.delMonitor un srv)).store.kickServerChan
          ≠ s.kickServerChan →
        lookupKey (runMOp eng s
          (MOp.delMonitor un srv)).store.allServers srv = none)) ∧
    (∀ un pw old new srv loc pr,
      (runMOp eng s (MOp.addUser un pw)).store.addServerChan
          = s.addServerChan ∧
      (runMOp eng s (MOp.addUser un pw)).store.kickServerChan
          = s.kickServerChan ∧
      (runMOp eng s (MOp.updatePassword un old new)).store.addServerChan
          = s.addServerChan ∧
      (runMOp eng s (MOp.updatePassword un old new)).store.kickServerChan
          = s.kickServerChan ∧
      (runMOp eng s (MOp.appendPing srv loc pr)).store.addServerChan
          = s.addServerChan ∧
      (runMOp eng s (MOp.appendPing srv loc pr)).store.kickServerChan
          = s.kickServerChan) := by
  have hcl : ¬ s.isClosed = true := by simp [hopen]
  refine ⟨fun un srv => ?_, fun un srv => ?_,
    fun un pw old new srv loc pr => ?_⟩
  · -- AddMonitorServer
    simp only [runMOp, Store.AddMonitorServer]
    rw [if_neg hcl]
    cases hu : lookupKey s.users un with
    | none =>
      dsimp only
      refine ⟨rfl, ?_⟩
      rw [if_neg (by omega)]
      simp
    | some u =>
      dsimp only
      by_cases hm : u.MonitorServers.contains srv = true
      · rw [if_pos hm]
        dsimp only
        refine ⟨rfl, ?_⟩
        rw [if_neg (by omega)]
        simp
      · rw [if_neg hm]
        dsimp only
        refine ⟨rfl, ?_⟩
        rw [getCount_setEntry_self]
        cases hl : lookupKey s.allServers srv with
        | none =>
          have hc0 : getCount s.allServers srv = 0 := by simp [getCount, hl]
          rw [hc0, if_pos (show (0 : Int) ≤ 0 ∧ (0 : Int) < 0 + 1 by norm_num)]
          simp
        | some v =>
          have hv := hc.2 srv v hl
          have hcv : getCount s.allServers srv = v := by simp [getCount, hl]
          rw [hcv, if_neg (show ¬((v : Int) ≤ 0 ∧ (0 : Int) < v + 1) by omega)]
          simp
  · -- DeleteMonitorServer
    simp only [runMOp, Store.DeleteMonitorServer]
    rw [if_neg hcl]
    cases hu : lookupKey s.users un with
    | none =>
      dsimp only
      refine ⟨rfl, ?_, fun habs => absurd rfl habs⟩
      rw [if_neg ?hcond]
      · simp
      case hcond =>
        rintro (⟨h1, h2⟩ | ⟨h1, h2⟩)
        · omega
        · simp [existsUserNotMonitoring, hu] at h1
    | some u =>
      dsimp only
      have h2 := hc.1 srv
      by_cases hm : u.MonitorServers.contains srv = true
      · have hcnt1 : 1 ≤ countMonitors s.users srv :=
          countMonitors_pos s.users un u hu srv hm
        rw [if_pos hm]
        by_cases hk : getCount (setEntry s.allServers srv
            (getCount s.allServers srv - 1)) srv ≤ 0
        · have hk' : getCount s.allServers srv - 1 ≤ 0 := by
            rw [getCount_setEntry_self] at hk
            exact hk
          rw [if_pos hk]
          dsimp only
          have habsent : lookupKey (delEntry (setEntry s.allServers srv
              (getCount s.allServers srv - 1)) srv) srv = none :=
            lookupKey_delEntry_self _ _
          refine ⟨rfl, ?_, fun _ => habsent⟩
          have hc0 : getCount (delEntry (setEntry s.allServers srv
              (getCount s.allServers srv - 1)) srv) srv = 0 :=
            getCount_delEntry_self _ _
          rw [if_pos (Or.inl ⟨by omega, by omega⟩)]
        · have hk' : ¬ getCount s.allServers srv - 1 ≤ 0 := by
            rw [getCount_setEntry_self] at hk
            exact hk
          rw [if_neg hk]
          dsimp only
          refine ⟨rfl, ?_, fun habs => absurd rfl habs⟩
          rw [getCount_setEntry_self, if_neg ?hcond2]
          · simp
          case hcond2 =>
            rintro (⟨ha, hb⟩ | ⟨ha, hb⟩)
            · omega
            · have hmem : srv ∈ u.MonitorServers := by simpa using hm
              simp [existsUserNotMonitoring, hu, hmem] at ha
      · rw [if_neg hm]
        by_cases hk : getCount s.allServers srv ≤ 0
        · rw [if_pos hk]
          dsimp only
          have habsent : lookupKey (delEntry s.allServers srv) srv = none :=
            lookupKey_delEntry_self _ _
          refine ⟨rfl, ?_, fun _ => habsent⟩
          rw [if_pos (Or.inr ⟨by
            have hnm : srv ∉ u.MonitorServers := by simpa using hm
            simp [existsUserNotMonitoring, hu, hnm], by omega⟩)]
        · rw [if_neg hk]
          dsimp only
          refine ⟨rfl, ?_, fun habs => absurd rfl habs⟩
          rw [if_neg ?hcond3]
          · simp
          case hcond3 =>
            rintro (⟨ha, hb⟩ | ⟨ha, hb⟩)
            · omega
            · omega
  · -- the remaining operations never push
    refine ⟨?_, ?_, ?_, ?_, ?_, ?_⟩ <;>
      · simp only [runMOp, Store.AddUser, Store.UpdatePassword,
          Store.AppendPingRet]
        rw [if_neg hcl]
        repeat' split
        all_goals rfl

/-- Witness for the amended C2: on `aliceStore`,
`DeleteMonitorServer("alice","srv1")` moves `srv1`'s count from 1 to
zero, so the kick condition fires, and the entry is absent
afterwards. -/
theorem chan_pushes_witness :
    (runMOp okEngine aliceStore
        (MOp.delMonitor "alice" "srv1")).store.kickServerChan
      = aliceStore.kickServerChan ++
        (if (0 < getCount aliceStore.allServers "srv1" ∧
              getCount (runMOp okEngine aliceStore
                (MOp.delMonitor "alice" "srv1")).store.allServers "srv1" ≤ 0)
            ∨ (existsUserNotMonitoring aliceStore.users "alice" "srv1" = true ∧
              getCount aliceStore.allServers "srv1" = 0)
         then ["srv1"] else []) ∧
    lookupKey (runMOp okEngine aliceStore
        (MOp.delMonitor "alice" "srv1")).store.allServers "srv1" = none :=
  ⟨((chan_pushes okEngine aliceStore rfl consistent_aliceStore).2.1
      "alice" "srv1").2.1,
   ((chan_pushes okEngine aliceStore rfl consistent_aliceStore).2.1
      "alice" "srv1").2.2 (by decide)⟩

end Watchdog
